import Mathlib

/-!
Verification of the core components of `src/Proyecto/JS/tema.js`:
the calculator input/state machine (`Calculator`, lines 1059-1290) and the
persisted dynamic list (`DynamicList`, lines 381-522).

Modelling conventions (shallow embedding):

* Strings are Lean `String`s; character-level reasoning is done on `.data`
  (`List Char`), which matches JavaScript strings over Unicode scalar values.
  (JS strings are UTF-16 code-unit sequences; lone surrogates cannot be
  produced by any code path under verification, so the scalar model agrees.)
* JavaScript numbers are modelled as exact fractions (`JsNumber`, an
  integer numerator with a positive denominator, not normalised).  The
  calculator claims under verification evaluate arithmetic only at inputs
  where IEEE binary64 arithmetic is exact (small integers, short decimals),
  so the exact model agrees with the code there.  The sign of zero and
  overflow to Infinity are not represented; no claim depends on them.
* `Number.prototype.toString` is modelled for the finite decimals the
  calculator produces (`numToString`); JavaScript switches to exponent
  notation outside `[1e-6, 1e21)`, which no claim reaches.
* Mutation of the singleton objects is modelled by explicit state passing:
  each method becomes a function from the relevant state to the new state.
-/

/-! ## Characters and decimal digits -/

/-- Decimal digit test, by code point (48 = `0` .. 57 = `9`). -/
def isDigitChar (c : Char) : Bool := 48 ≤ c.toNat && c.toNat ≤ 57

/-- Numeric value of a decimal digit character. -/
def digitVal (c : Char) : Nat := c.toNat - 48

/-- The decimal digit character for `n < 10` (dummy `0` out of range). -/
def digitChar : Nat → Char
  | 0 => '0' | 1 => '1' | 2 => '2' | 3 => '3' | 4 => '4'
  | 5 => '5' | 6 => '6' | 7 => '7' | 8 => '8' | 9 => '9'
  | _ => '0'

/-- Value of a big-endian list of decimal digit characters. -/
def digitsToNat (ds : List Char) : Nat := ds.foldl (fun a c => 10 * a + digitVal c) 0

/-- Fuel-driven core of decimal printing: peels digits from the low end.
`fuel ≥ n` suffices, since `n / 10 < n` for `n > 0`. -/
def natToDigitsGo : Nat → Nat → List Char → List Char
  | 0, _, acc => acc
  | fuel + 1, n, acc =>
    if n = 0 then acc else natToDigitsGo fuel (n / 10) (digitChar (n % 10) :: acc)

/-- Decimal digits of a natural number, without leading zeros (`0` prints `"0"`),
exactly as JavaScript prints integral numbers in this range. -/
def natToDigits (n : Nat) : List Char := if n = 0 then ['0'] else natToDigitsGo (n + 1) n []

/-- Decimal digits of an integer, with a leading minus sign when negative. -/
def intToDigits (i : Int) : List Char :=
  if i < 0 then '-' :: natToDigits i.natAbs else natToDigits i.natAbs

/-- Lowercase hexadecimal digit character for `n < 16` (dummy `0` out of range). -/
def hexDigitChar : Nat → Char
  | 0 => '0' | 1 => '1' | 2 => '2' | 3 => '3' | 4 => '4'
  | 5 => '5' | 6 => '6' | 7 => '7' | 8 => '8' | 9 => '9'
  | 10 => 'a' | 11 => 'b' | 12 => 'c' | 13 => 'd' | 14 => 'e' | 15 => 'f'
  | _ => '0'

/-- Hexadecimal digit value, either case; `none` for a non-hex character. -/
def hexVal (c : Char) : Option Nat :=
  if 48 ≤ c.toNat && c.toNat ≤ 57 then some (c.toNat - 48)
  else if 97 ≤ c.toNat && c.toNat ≤ 102 then some (c.toNat - 87)
  else if 65 ≤ c.toNat && c.toNat ≤ 70 then some (c.toNat - 55)
  else none

/-! ## JavaScript numbers as exact fractions -/

/-- An exact fraction standing in for a JavaScript number: `num / den`,
`den` positive by construction everywhere it is consumed.  Not normalised;
equality of values is never tested on this type by the code (only the
zero test `current === 0`, which is `num = 0`). -/
structure JsNumber where
  num : Int
  den : Nat
deriving DecidableEq

/-- Addition (`prev + current` in `compute`, tema.js line 1195). -/
def JsNumber.add (a b : JsNumber) : JsNumber :=
  ⟨a.num * (b.den : Int) + b.num * (a.den : Int), a.den * b.den⟩

/-- Subtraction (tema.js line 1198). -/
def JsNumber.sub (a b : JsNumber) : JsNumber :=
  ⟨a.num * (b.den : Int) - b.num * (a.den : Int), a.den * b.den⟩

/-- Multiplication (tema.js line 1202). -/
def JsNumber.mul (a b : JsNumber) : JsNumber :=
  ⟨a.num * b.num, a.den * b.den⟩

/-- Division (tema.js line 1209); only reached with a nonzero divisor. -/
def JsNumber.div (a b : JsNumber) : JsNumber :=
  if b.num < 0 then ⟨-(a.num * (b.den : Int)), a.den * b.num.natAbs⟩
  else ⟨a.num * (b.den : Int), a.den * b.num.natAbs⟩

/-- `parseFloat(x.toFixed(10))` (tema.js line 1218): round to at most ten
fractional digits.  `toFixed` picks the nearest `n / 10^10`, preferring the
larger `n` on ties, i.e. `n = ⌊x * 10^10 + 1/2⌋`; `parseFloat` of the fixed
string recovers that value exactly. -/
def roundTo10 (a : JsNumber) : JsNumber :=
  ⟨Int.fdiv (2 * a.num * 10000000000 + (a.den : Int)) (2 * (a.den : Int)), 10000000000⟩

/-- Long-division digits of `r / d` (at most `fuel` of them), stopping at
remainder zero — hence no trailing zeros.  Used with `fuel = 10` on the
output of `roundTo10`, whose fraction terminates within ten digits. -/
def fracDigitsLoop : Nat → Nat → Nat → List Char
  | 0, _, _ => []
  | fuel + 1, r, d =>
    if r = 0 then [] else digitChar (r * 10 / d) :: fracDigitsLoop fuel (r * 10 % d) d

/-- `Number.prototype.toString` on the finite decimals produced by
`roundTo10`: minus sign for negative values, integer digits, and the exact
fractional digits with trailing zeros stripped (the decimal point is omitted
when the value is integral).  JavaScript would use exponent notation outside
`[1e-6, 1e21)`; no claim under verification evaluates the function there. -/
def numToString (q : JsNumber) : String :=
  let a := q.num.natAbs
  let ip := a / q.den
  let frac := fracDigitsLoop 10 (a % q.den) q.den
  (if q.num < 0 then "-" else "") ++ String.mk (natToDigits ip) ++
    (if frac = [] then "" else "." ++ String.mk frac)

/-! ## `parseFloat` -/

/-- JavaScript `StrWhiteSpace` characters relevant here. -/
def isWsChar (c : Char) : Bool :=
  c == ' ' || c == '\t' || c == '\n' || c == '\r' || c == '\x0b' || c == '\x0c'

/-- Exponent suffix of a decimal literal: optional sign then digits.
Returns the magnitude and whether the exponent is nonnegative; an empty
digit run means the exponent part is not part of the parsed prefix, so it
contributes `(0, true)` — exactly the longest-valid-prefix rule of
`parseFloat` (`"1e"` parses as `1`). -/
def parseExpSuffix (cs : List Char) : Nat × Bool :=
  let sp : Bool × List Char :=
    match cs with
    | '-' :: r => (false, r)
    | '+' :: r => (true, r)
    | _ => (true, cs)
  let ds := sp.2.takeWhile isDigitChar
  if ds = [] then (0, true) else (digitsToNat ds, sp.1)

/-- JavaScript `parseFloat` on a character list: skip leading whitespace,
then read the longest prefix of the form `[+|-] digits [. digits] [e...]`;
`none` models `NaN` (no digits at all).  The special literal `Infinity` and
the sign of zero are not modelled — no operand under verification produces
them. -/
def parseFloatChars (cs0 : List Char) : Option JsNumber :=
  let cs := cs0.dropWhile isWsChar
  let sp : Bool × List Char :=
    match cs with
    | '-' :: r => (true, r)
    | '+' :: r => (false, r)
    | _ => (false, cs)
  let intDs := sp.2.takeWhile isDigitChar
  let cs2 := sp.2.dropWhile isDigitChar
  let fp : List Char × List Char :=
    match cs2 with
    | '.' :: r => (r.takeWhile isDigitChar, r.dropWhile isDigitChar)
    | _ => ([], cs2)
  if intDs = [] && fp.1 = [] then none
  else
    let mant : Nat := digitsToNat (intDs ++ fp.1)
    let k : Nat := fp.1.length
    let ep : Nat × Bool :=
      match fp.2 with
      | 'e' :: r => parseExpSuffix r
      | 'E' :: r => parseExpSuffix r
      | _ => (0, true)
    let signedMant : Int := if sp.1 then -(mant : Int) else (mant : Int)
    if ep.2 then
      if k ≤ ep.1 then some ⟨signedMant * ((10 ^ (ep.1 - k) : Nat) : Int), 1⟩
      else some ⟨signedMant, 10 ^ (k - ep.1)⟩
    else some ⟨signedMant, 10 ^ (k + ep.1)⟩

/-- `parseFloat` on a string. -/
def parseFloat (s : String) : Option JsNumber := parseFloatChars s.data

/-! ## The calculator state machine (tema.js lines 1059-1290)

The singleton `Calculator` object holds four data fields (lines 1061-1064);
the DOM handles (`display`, `previousDisplay`) belong to the external
renderer and are not part of the state machine. -/

/-- The calculator state: `currentOperand`, `previousOperand`, `operation`
and `shouldResetScreen` exactly as in tema.js lines 1061-1064.  The staged
operation is kept as the raw token string the code switches on (`"+"`,
`"-"`, `"×"` or `"*"`, `"÷"` or `"/"`); `none` models `null`. -/
structure Calculator where
  currentOperand : String := "0"
  previousOperand : String := ""
  operation : Option String := none
  shouldResetScreen : Bool := false
deriving DecidableEq

/-- The state at engine start (the initialisers of lines 1061-1064). -/
def Calculator.initial : Calculator := {}

/-- `appendNumber` (tema.js lines 1153-1166): reset handling, duplicate
decimal point rejection, leading-zero replacement, append. -/
def Calculator.appendNumber (number : String) (s : Calculator) : Calculator :=
  let s1 := if s.shouldResetScreen then
    { s with currentOperand := "", shouldResetScreen := false } else s
  if (number == ".") && s1.currentOperand.data.contains '.' then s1
  else if (s1.currentOperand == "0") && (number != ".") then
    { s1 with currentOperand := number }
  else { s1 with currentOperand := s1.currentOperand ++ number }

/-- The common tail of `compute` (tema.js lines 1221-1224): store the
computed display string, clear the staged operation and previous operand,
and arm `shouldResetScreen`. -/
def computeResultState (computationStr : String) (s : Calculator) : Calculator :=
  { s with currentOperand := computationStr, operation := none,
           previousOperand := "", shouldResetScreen := true }

/-- `compute` (tema.js lines 1186-1225): parse both operands (`return`
without change if either is `NaN`), apply the staged operator (`return` on
`null`/unknown), with the division-by-zero sentinel `"Error: Div/0"`;
numeric results pass through `toFixed(10)`/`parseFloat` and `toString`. -/
def Calculator.compute (s : Calculator) : Calculator :=
  match parseFloat s.previousOperand, parseFloat s.currentOperand with
  | some prev, some current =>
    match s.operation with
    | some op =>
      if op == "+" then computeResultState (numToString (roundTo10 (prev.add current))) s
      else if op == "-" then computeResultState (numToString (roundTo10 (prev.sub current))) s
      else if op == "×" || op == "*" then
        computeResultState (numToString (roundTo10 (prev.mul current))) s
      else if op == "÷" || op == "/" then
        if current.num == 0 then computeResultState "Error: Div/0" s
        else computeResultState (numToString (roundTo10 (prev.div current))) s
      else s
    | none => s
  | _, _ => s

/-- `chooseOperation` (tema.js lines 1171-1181): no-op on an empty current
operand; folds the pending pair through `compute` when an operator is
already staged; then stages the operator and shifts the operands. -/
def Calculator.chooseOperation (operation : String) (s : Calculator) : Calculator :=
  if s.currentOperand == "" then s
  else
    let s1 := if s.previousOperand != "" then s.compute else s
    { s1 with operation := some operation, previousOperand := s1.currentOperand,
              currentOperand := "" }

/-- `clear` (tema.js lines 1230-1234): reset the three operand fields;
`shouldResetScreen` is not written. -/
def Calculator.clear (s : Calculator) : Calculator :=
  { s with currentOperand := "0", previousOperand := "", operation := none }

/-- `delete` (tema.js lines 1239-1245): a single-character operand or the
error sentinel resets to `"0"`; otherwise drop the last character
(`slice(0, -1)`). -/
def Calculator.delete (s : Calculator) : Calculator :=
  if s.currentOperand.length == 1 || s.currentOperand == "Error: Div/0" then
    { s with currentOperand := "0" }
  else { s with currentOperand := String.mk s.currentOperand.data.dropLast }

/-! ## Display formatting (`getDisplayNumber`, tema.js lines 1250-1271) -/

/-- `String.prototype.split('.')`: all fragments between the dots;
`"".split('.')` is `[""]`. -/
def splitDots : List Char → List (List Char)
  | [] => [[]]
  | c :: rest =>
    if c = '.' then [] :: splitDots rest
    else
      match splitDots rest with
      | [] => [[c]]
      | p :: ps => (c :: p) :: ps

/-- Regroup a reversed digit list into blocks of three separated by `.`
(the `es` thousands separator), low-order digits first. -/
def group3 : List Char → List Char
  | d1 :: d2 :: d3 :: d4 :: rest => d1 :: d2 :: d3 :: '.' :: group3 (d4 :: rest)
  | ds => ds

/-- `toLocaleString('es', {maximumFractionDigits: 0})`: round half away
from zero to an integer, then print with `.` thousands separators.  CLDR
gives Spanish a minimum grouping of two digits, so separators appear only
from five integer digits up (`1234` stays `"1234"`, `12345` becomes
`"12.345"`). -/
def toLocaleStringEs (q : JsNumber) : String :=
  let mAbs : Nat := (2 * q.num.natAbs + q.den) / (2 * q.den)
  let ds := natToDigits mAbs
  let grouped := if 5 ≤ ds.length then (group3 ds.reverse).reverse else ds
  (if q.num < 0 then "-" else "") ++ String.mk grouped

/-- `getDisplayNumber` (tema.js lines 1250-1271): the error sentinel passes
through; otherwise split on `.`, format the integer part (empty display for
`NaN`), and reattach the first fragment after the point, if any, verbatim. -/
def Calculator.getDisplayNumber (number : String) : String :=
  if number = "Error: Div/0" then number
  else
    let parts := splitDots number.data
    let integerDisplay :=
      match parseFloatChars (parts.headD []) with
      | none => ""
      | some q => toLocaleStringEs q
    match parts.get? 1 with
    | some ds => integerDisplay ++ "." ++ String.mk ds
    | none => integerDisplay

/-! ## JSON (the `JSON.stringify` / `JSON.parse` built-ins)

`DynamicList` persists its items through `JSON.stringify(this.items)`
(tema.js line 511) and reloads them through `JSON.parse(savedItems)`
(line 400).  The built-ins are modelled on a JSON value tree.  Two
documented restrictions, neither reachable from the store's own data:
numbers are integers (the only numbers the store writes are the integral
`Date.now()` ids; fractional or exponent literals make the model reject
where the built-in would accept), and inter-token whitespace is not
skipped (`JSON.stringify` emits none). -/

/-- A JSON value. -/
inductive Json where
  | null
  | bool (b : Bool)
  | num (i : Int)
  | str (s : String)
  | arr (elems : List Json)
  | obj (fields : List (String × Json))

/-- `QuoteJSONString` escaping of one character: `\"`, `\\`, the five
short control escapes, `\u00xx` (lowercase hex) for the remaining control
characters, and everything else verbatim. -/
def escapeChar (c : Char) : List Char :=
  if c = '"' then ['\\', '"']
  else if c = '\\' then ['\\', '\\']
  else if c = '\x08' then ['\\', 'b']
  else if c = '\t' then ['\\', 't']
  else if c = '\n' then ['\\', 'n']
  else if c = '\x0c' then ['\\', 'f']
  else if c = '\r' then ['\\', 'r']
  else if c.toNat < 32 then
    ['\\', 'u', '0', '0', hexDigitChar (c.toNat / 16), hexDigitChar (c.toNat % 16)]
  else [c]

/-- Escape a whole string body. -/
def escapeString (s : String) : List Char := s.data.flatMap escapeChar

mutual
/-- `JSON.stringify` (no spacing argument): the exact character stream. -/
def Json.print : Json → List Char
  | .null => "null".data
  | .bool true => "true".data
  | .bool false => "false".data
  | .num i => intToDigits i
  | .str s => '"' :: escapeString s ++ ['"']
  | .arr xs => '[' :: Json.printElems xs ++ [']']
  | .obj fs => '{' :: Json.printFields fs ++ ['}']
/-- Array elements, comma-separated. -/
def Json.printElems : List Json → List Char
  | [] => []
  | [x] => x.print
  | x :: xs => x.print ++ ',' :: Json.printElems xs
/-- Object members `"key":value`, comma-separated, in insertion order
(which `JSON.stringify` preserves for string keys). -/
def Json.printFields : List (String × Json) → List Char
  | [] => []
  | [(k, v)] => '"' :: escapeString k ++ '"' :: ':' :: v.print
  | (k, v) :: fs => ('"' :: escapeString k ++ '"' :: ':' :: v.print) ++ ',' :: Json.printFields fs
end

/-- The single-character JSON escapes (after a backslash), as a table. -/
def unescapeChar (e : Char) : Option Char :=
  if e = '"' then some '"'
  else if e = '\\' then some '\\'
  else if e = '/' then some '/'
  else if e = 'b' then some '\x08'
  else if e = 'f' then some '\x0c'
  else if e = 'n' then some '\n'
  else if e = 'r' then some '\r'
  else if e = 't' then some '\t'
  else none

/-- Parse a JSON string body after the opening quote: returns the decoded
characters and the remainder after the closing quote.  Raw control
characters are rejected, escapes are decoded (both hex cases accepted in
`\uXXXX`). -/
def parseStringBody : List Char → Option (List Char × List Char)
  | [] => none
  | c :: rest =>
    if c = '"' then some ([], rest)
    else if c = '\\' then
      match rest with
      | [] => none
      | e :: r1 =>
        if e = 'u' then
          match r1 with
          | h1 :: h2 :: h3 :: h4 :: r =>
            match hexVal h1, hexVal h2, hexVal h3, hexVal h4 with
            | some a, some b, some c2, some d =>
              (parseStringBody r).map
                (fun p => (Char.ofNat (((a * 16 + b) * 16 + c2) * 16 + d) :: p.1, p.2))
            | _, _, _, _ => none
          | _ => none
        else
          match unescapeChar e with
          | some u => (parseStringBody r1).map (fun p => (u :: p.1, p.2))
          | none => none
    else if c.toNat < 32 then none
    else (parseStringBody rest).map (fun p => (c :: p.1, p.2))
termination_by structural cs => cs

/-- Parse an integer numeric token: optional minus sign then a digit run. -/
def parseIntToken (cs : List Char) : Option (Int × List Char) :=
  match cs with
  | [] => none
  | c :: rest =>
    if c = '-' then
      if rest.takeWhile isDigitChar = [] then none
      else some (-(digitsToNat (rest.takeWhile isDigitChar) : Int), rest.dropWhile isDigitChar)
    else
      if (c :: rest).takeWhile isDigitChar = [] then none
      else some ((digitsToNat ((c :: rest).takeWhile isDigitChar) : Int),
                 (c :: rest).dropWhile isDigitChar)

/-- Consume an expected literal continuation (the tails of `null`, `true`,
`false`). -/
def expectChars : List Char → List Char → Option (List Char)
  | [], cs => some cs
  | _ :: _, [] => none
  | p :: ps, c :: cs => if c = p then expectChars ps cs else none

mutual
/-- Recursive-descent `JSON.parse` core.  The fuel only bounds nesting of
the mutual recursion; any `fuel ≥` the input length suffices. -/
def parseValue : Nat → List Char → Option (Json × List Char)
  | 0, _ => none
  | fuel + 1, cs =>
    match cs with
    | [] => none
    | c :: rest =>
      if c = '"' then (parseStringBody rest).map (fun p => (.str (String.mk p.1), p.2))
      else if c = '[' then
        match rest with
        | [] => none
        | c2 :: r2 =>
          if c2 = ']' then some (.arr [], r2)
          else
            match parseElems fuel (c2 :: r2) with
            | some (vs, r3) =>
              match r3 with
              | [] => none
              | c3 :: r4 => if c3 = ']' then some (.arr vs, r4) else none
            | none => none
      else if c = '{' then
        match rest with
        | [] => none
        | c2 :: r2 =>
          if c2 = '}' then some (.obj [], r2)
          else
            match parseFields fuel (c2 :: r2) with
            | some (fs, r3) =>
              match r3 with
              | [] => none
              | c3 :: r4 => if c3 = '}' then some (.obj fs, r4) else none
            | none => none
      else if c = 'n' then
        match expectChars ['u', 'l', 'l'] rest with
        | some r => some (.null, r)
        | none => none
      else if c = 't' then
        match expectChars ['r', 'u', 'e'] rest with
        | some r => some (.bool true, r)
        | none => none
      else if c = 'f' then
        match expectChars ['a', 'l', 's', 'e'] rest with
        | some r => some (.bool false, r)
        | none => none
      else
        match parseIntToken (c :: rest) with
        | some (i, r) => some (.num i, r)
        | none => none
/-- One-or-more comma-separated array elements; stops before the first
token that is not a comma (the caller checks for `]`). -/
def parseElems : Nat → List Char → Option (List Json × List Char)
  | 0, _ => none
  | fuel + 1, cs =>
    match parseValue fuel cs with
    | none => none
    | some (v, rest) =>
      match rest with
      | [] => some ([v], [])
      | c :: r2 =>
        if c = ',' then
          match parseElems fuel r2 with
          | some (vs, r3) => some (v :: vs, r3)
          | none => none
        else some ([v], c :: r2)
/-- One-or-more comma-separated object members. -/
def parseFields : Nat → List Char → Option (List (String × Json) × List Char)
  | 0, _ => none
  | fuel + 1, cs =>
    match cs with
    | [] => none
    | c0 :: r1 =>
      if c0 = '"' then
        match parseStringBody r1 with
        | none => none
        | some (k, r) =>
          match r with
          | [] => none
          | c1 :: r2 =>
            if c1 = ':' then
              match parseValue fuel r2 with
              | none => none
              | some (v, rest) =>
                match rest with
                | [] => some ([(String.mk k, v)], [])
                | c :: r3 =>
                  if c = ',' then
                    match parseFields fuel r3 with
                    | some (fs, r4) => some ((String.mk k, v) :: fs, r4)
                    | none => none
                  else some ([(String.mk k, v)], c :: r3)
            else none
      else none
end

/-- `JSON.parse`: parse one value consuming the entire input; `none`
models the thrown `SyntaxError`. -/
def jsonParse (s : String) : Option Json :=
  match parseValue (s.length + 1) s.data with
  | some (j, []) => some j
  | _ => none

/-- `JSON.stringify` on a value tree, as a string. -/
def jsonStringify (j : Json) : String := String.mk j.print

/-! ## The dynamic list store (`DynamicList`, tema.js lines 381-522) -/

/-- A list record as built by `addItem` (tema.js lines 409-413): the
`Date.now()` id, the three form fields (always present, possibly empty
strings), and the ISO `createdAt` stamp.  Property order in the object
literal is `id`, then the spread of `{title, description, value}`, then
`createdAt`. -/
structure ListItem where
  id : Int
  title : String
  description : String
  itemValue : String
  createdAt : String
deriving DecidableEq

/-- The JSON object `JSON.stringify` sees for one item, fields in
insertion order. -/
def encodeItem (x : ListItem) : Json :=
  .obj [("id", .num x.id), ("title", .str x.title), ("description", .str x.description),
        ("value", .str x.itemValue), ("createdAt", .str x.createdAt)]

/-- `saveToLocalStorage` (tema.js lines 510-512): the string written to
the `dynamicListItems` key is `JSON.stringify(this.items)`. -/
def DynamicList.saveToLocalStorage (items : List ListItem) : String :=
  jsonStringify (.arr (items.map encodeItem))

/-- Property lookup on a parsed JSON object (`item.id`, `item.title`, ...):
for duplicate keys `JSON.parse` keeps the last occurrence. -/
def Json.getField (k : String) : Json → Option Json
  | .obj fs => fs.foldl (fun acc f => if f.1 = k then some f.2 else acc) none
  | _ => none

/-- Read one parsed JSON value back as a `ListItem` record (the shape the
rest of the store consumes via `item.id`, `item.title`, `item.description`,
`item.value`, `item.createdAt`). -/
def decodeItem (j : Json) : Option ListItem :=
  match j.getField "id", j.getField "title", j.getField "description",
        j.getField "value", j.getField "createdAt" with
  | some (.num i), some (.str t), some (.str d), some (.str v), some (.str c) =>
    some ⟨i, t, d, v, c⟩
  | _, _, _, _, _ => none

/-- Read each parsed element back as a record; any non-record element
rejects the whole sequence. -/
def decodeItemList : List Json → Option (List ListItem)
  | [] => some []
  | v :: vs =>
    match decodeItem v, decodeItemList vs with
    | some x, some xs => some (x :: xs)
    | _, _ => none

/-- Read a parsed JSON value back as the item sequence. -/
def decodeItems (j : Json) : Option (List ListItem) :=
  match j with
  | .arr vs => decodeItemList vs
  | _ => none

/-- Deserialisation of a persisted blob into an item sequence:
`JSON.parse` followed by reading the records. -/
def deserializeItems (s : String) : Option (List ListItem) :=
  match jsonParse s with
  | some j => decodeItems j
  | none => none

/-- `DynamicList.init` loading step (tema.js lines 397-402), as the fate
of the `items` field: a missing key (`null`) or an empty string (falsy)
skips the load and leaves the default `[]`; otherwise
`this.items = JSON.parse(savedItems)` assigns whatever the parse yields,
and a parse failure is an uncaught `SyntaxError` propagating to the
caller — there is no `try`/`catch` in `init` or in `App.init`
(lines 1297-1307).  `Except.error` models that fault. -/
def DynamicList.init (saved : Option String) : Except String Json :=
  match saved with
  | none => .ok (.arr [])
  | some s =>
    if s = "" then .ok (.arr [])
    else
      match jsonParse s with
      | some v => .ok v
      | none => .error "SyntaxError"

/-- `removeItem` (tema.js lines 425-429), effect on the item sequence:
`this.items = this.items.filter(item => item.id !== itemId)`. -/
def DynamicList.removeItem (items : List ListItem) (itemId : Int) : List ListItem :=
  items.filter (fun item => item.id != itemId)

/-- `clearAll` (tema.js lines 517-521), effect on the item sequence. -/
def DynamicList.clearAll (_items : List ListItem) : List ListItem := []

/-! ## Rendering (`render` / `createItemElement`, tema.js lines 434-487)

`createItemElement` builds one card per item.  Everything it displays is a
function of the item and of two ambient environment inputs: the date
formatter (`new Date(...).toLocaleDateString()`, a fixed function of the
`createdAt` string for a fixed locale and time zone) and `Math.random()`
(one call per card, for the border colour).  The randomness is modelled as
an oracle giving the value of `Math.floor(Math.random() * 5)` at each call
index. -/

/-- What one rendered card shows: the random colour index plus the five
state-determined pieces (title with its placeholder, formatted date,
description with its placeholder, the optional value line, and the id
wired to the delete button). -/
structure RenderDescriptor where
  colorIndex : Nat
  title : String
  dateText : String
  description : String
  valueLine : Option String
  deleteId : Int
deriving DecidableEq

/-- `createItemElement` (tema.js lines 455-487) as a display descriptor:
`item.title || 'Sin título'`, the formatted date, `item.description ||
'Sin descripción'`, the value line only when `item.value` is truthy, and
the delete affordance carrying `item.id`. -/
def DynamicList.createItemElement (formatDate : String → String) (rand : Nat)
    (item : ListItem) : RenderDescriptor :=
  { colorIndex := rand
    title := if item.title = "" then "Sin título" else item.title
    dateText := formatDate item.createdAt
    description := if item.description = "" then "Sin descripción" else item.description
    valueLine := if item.itemValue = "" then none else some item.itemValue
    deleteId := item.id }

/-- The `forEach` walk of `render`, consuming one `Math.random()` call per
item, in order. -/
def renderFrom (formatDate : String → String) (oracle : Nat → Nat) (i : Nat) :
    List ListItem → List RenderDescriptor
  | [] => []
  | item :: rest =>
    DynamicList.createItemElement formatDate (oracle i) item ::
      renderFrom formatDate oracle (i + 1) rest

/-- `render` (tema.js lines 434-450) as the list of card descriptors (an
empty item list renders no cards and shows the empty message, which
carries no descriptor). -/
def DynamicList.render (formatDate : String → String) (oracle : Nat → Nat)
    (items : List ListItem) : List RenderDescriptor :=
  renderFrom formatDate oracle 0 items

/-- The state-determined part of a descriptor: everything except the
random colour index. -/
structure ItemView where
  title : String
  dateText : String
  description : String
  valueLine : Option String
  deleteId : Int
deriving DecidableEq

/-- Forget the colour index. -/
def RenderDescriptor.toView (d : RenderDescriptor) : ItemView :=
  ⟨d.title, d.dateText, d.description, d.valueLine, d.deleteId⟩

/-! ## Lemmas: decimal digit printing -/

theorem isDigitChar_digitChar : ∀ m, m < 10 → isDigitChar (digitChar m) = true := by decide

theorem digitVal_digitChar : ∀ m, m < 10 → digitVal (digitChar m) = m := by decide

theorem natToDigitsGo_zero (fuel : Nat) (acc : List Char) :
    natToDigitsGo fuel 0 acc = acc := by
  cases fuel <;> simp [natToDigitsGo]

theorem natToDigitsGo_append (fuel : Nat) : ∀ (n : Nat) (acc : List Char),
    natToDigitsGo fuel n acc = natToDigitsGo fuel n [] ++ acc := by
  induction fuel with
  | zero => intro n acc; simp [natToDigitsGo]
  | succ fuel ih =>
    intro n acc
    by_cases h : n = 0
    · simp [natToDigitsGo, h]
    · simp only [natToDigitsGo, if_neg h]
      rw [ih (n / 10) [digitChar (n % 10)], ih (n / 10) (digitChar (n % 10) :: acc)]
      simp

theorem mem_natToDigitsGo (fuel : Nat) : ∀ (n : Nat) (acc : List Char) (c : Char),
    c ∈ natToDigitsGo fuel n acc → c ∈ acc ∨ isDigitChar c = true := by
  induction fuel with
  | zero => intro n acc c hc; simp [natToDigitsGo] at hc; exact Or.inl hc
  | succ fuel ih =>
    intro n acc c hc
    by_cases h : n = 0
    · simp [natToDigitsGo, h] at hc; exact Or.inl hc
    · simp only [natToDigitsGo, if_neg h] at hc
      rcases ih (n / 10) (digitChar (n % 10) :: acc) c hc with hmem | hdig
      · rcases List.mem_cons.mp hmem with heq | hacc
        · exact Or.inr (heq ▸ isDigitChar_digitChar (n % 10) (Nat.mod_lt n (by omega)))
        · exact Or.inl hacc
      · exact Or.inr hdig

theorem digitsToNat_append_singleton (xs : List Char) (c : Char) :
    digitsToNat (xs ++ [c]) = 10 * digitsToNat xs + digitVal c := by
  simp [digitsToNat, List.foldl_append]

theorem natToDigitsGo_val (fuel : Nat) : ∀ (n : Nat), 0 < n → n ≤ fuel →
    digitsToNat (natToDigitsGo fuel n []) = n := by
  induction fuel with
  | zero => intro n h1 h2; omega
  | succ fuel ih =>
    intro n h1 h2
    simp only [natToDigitsGo, if_neg (by omega : ¬ n = 0)]
    rw [natToDigitsGo_append fuel (n / 10) [digitChar (n % 10)]]
    by_cases h : n / 10 = 0
    · rw [h, natToDigitsGo_zero]
      have h10 : n < 10 := by omega
      simp [digitsToNat, digitVal_digitChar (n % 10) (by omega)]
      omega
    · rw [digitsToNat_append_singleton, ih (n / 10) (by omega) (by omega),
          digitVal_digitChar (n % 10) (by omega)]
      omega

theorem digitsToNat_natToDigits (n : Nat) : digitsToNat (natToDigits n) = n := by
  by_cases h : n = 0
  · subst h; decide
  · simp only [natToDigits, if_neg h]
    exact natToDigitsGo_val (n + 1) n (by omega) (by omega)

theorem natToDigits_all_digits (n : Nat) : ∀ c ∈ natToDigits n, isDigitChar c = true := by
  intro c hc
  by_cases h : n = 0
  · subst h; simp [natToDigits] at hc; subst hc; decide
  · simp only [natToDigits, if_neg h] at hc
    rcases mem_natToDigitsGo (n + 1) n [] c hc with habs | hdig
    · simp at habs
    · exact hdig

theorem natToDigits_ne_nil (n : Nat) : natToDigits n ≠ [] := by
  by_cases h : n = 0
  · subst h; simp [natToDigits]
  · simp only [natToDigits, if_neg h]
    cases fuel : n + 1 with
    | zero => omega
    | succ f =>
      simp only [natToDigitsGo, if_neg h]
      rw [natToDigitsGo_append f (n / 10) [digitChar (n % 10)]]
      simp

/-! ## Lemmas: takeWhile / dropWhile over a fully-satisfying prefix -/

theorem takeWhile_append_all (p : Char → Bool) : ∀ (xs ys : List Char),
    (∀ c ∈ xs, p c = true) → (xs ++ ys).takeWhile p = xs ++ ys.takeWhile p := by
  intro xs
  induction xs with
  | nil => intro ys _; simp
  | cons x xs ih =>
    intro ys h
    simp only [List.cons_append, List.takeWhile_cons, h x (by simp)]
    rw [ih ys (fun c hc => h c (by simp [hc]))]
    simp

theorem dropWhile_append_all (p : Char → Bool) : ∀ (xs ys : List Char),
    (∀ c ∈ xs, p c = true) → (xs ++ ys).dropWhile p = ys.dropWhile p := by
  intro xs
  induction xs with
  | nil => intro ys _; simp
  | cons x xs ih =>
    intro ys h
    simp only [List.cons_append, List.dropWhile_cons, h x (by simp)]
    exact ih ys (fun c hc => h c (by simp [hc]))

/-- A continuation on which a maximal digit run correctly stops: empty, or
not starting with a digit. -/
def numSafe (cs : List Char) : Prop := ∀ c, cs.head? = some c → isDigitChar c = false

theorem numSafe_nil : numSafe [] := by intro c h; simp at h

theorem takeWhile_digits_eq_nil (ys : List Char) (h : numSafe ys) :
    ys.takeWhile isDigitChar = [] := by
  cases ys with
  | nil => rfl
  | cons y ys => simp [List.takeWhile_cons, h y rfl]

theorem dropWhile_digits_eq_self (ys : List Char) (h : numSafe ys) :
    ys.dropWhile isDigitChar = ys := by
  cases ys with
  | nil => rfl
  | cons y ys => simp [List.dropWhile_cons, h y rfl]

theorem digit_ne_of_isDigit {c : Char} (h : isDigitChar c = true) :
    c ≠ '-' ∧ c ≠ '"' ∧ c ≠ '[' ∧ c ≠ '{' ∧ c ≠ 'n' ∧ c ≠ 't' ∧ c ≠ 'f' ∧
    c ≠ ']' ∧ c ≠ '}' ∧ c ≠ ',' ∧ c ≠ ':' := by
  simp only [isDigitChar, Bool.and_eq_true, decide_eq_true_eq] at h
  refine ⟨?_, ?_, ?_, ?_, ?_, ?_, ?_, ?_, ?_, ?_, ?_⟩ <;>
    (intro hc; subst hc; revert h; decide)

/-! ## Lemmas: the integer token round-trips -/

theorem parseIntToken_print (i : Int) (rest : List Char) (h : numSafe rest) :
    parseIntToken (intToDigits i ++ rest) = some (i, rest) := by
  have hdigits := natToDigits_all_digits i.natAbs
  have htw : (natToDigits i.natAbs ++ rest).takeWhile isDigitChar = natToDigits i.natAbs := by
    rw [takeWhile_append_all isDigitChar _ rest hdigits, takeWhile_digits_eq_nil rest h]
    simp
  have hdw : (natToDigits i.natAbs ++ rest).dropWhile isDigitChar = rest := by
    rw [dropWhile_append_all isDigitChar _ rest hdigits, dropWhile_digits_eq_self rest h]
  by_cases hneg : i < 0
  · simp only [intToDigits, if_pos hneg, List.cons_append, parseIntToken]
    rw [htw, hdw]
    simp [if_neg (natToDigits_ne_nil i.natAbs), digitsToNat_natToDigits, abs_of_neg hneg]
  · simp only [intToDigits, if_neg hneg]
    cases hnd : natToDigits i.natAbs with
    | nil => exact absurd hnd (natToDigits_ne_nil i.natAbs)
    | cons c cs =>
      have hc : isDigitChar c = true := hdigits c (by rw [hnd]; simp)
      rw [hnd] at htw hdw
      simp only [List.cons_append] at htw hdw
      simp only [List.cons_append, parseIntToken]
      rw [if_neg (digit_ne_of_isDigit hc).1, htw, hdw]
      simp only [if_neg (by simp : ¬ (c :: cs = []))]
      rw [← hnd, digitsToNat_natToDigits]
      simp only [Option.some.injEq, Prod.mk.injEq]
      exact ⟨by omega, trivial⟩

/-! ## Lemmas: JSON string escaping round-trips -/

theorem hexVal_hexDigitChar : ∀ m, m < 16 → hexVal (hexDigitChar m) = some m := by decide

theorem parseStringBody_u (h3 h4 : Char) (a b : Nat) (tail : List Char)
    (ha : hexVal h3 = some a) (hb : hexVal h4 = some b) :
    parseStringBody ('\\' :: 'u' :: '0' :: '0' :: h3 :: h4 :: tail) =
      (parseStringBody tail).map
        (fun p => (Char.ofNat (((0 * 16 + 0) * 16 + a) * 16 + b) :: p.1, p.2)) := by
  have h0 : hexVal '0' = some 0 := rfl
  rw [parseStringBody.eq_def]
  simp [h0, ha, hb]

theorem parseStringBody_escapeChar (c : Char) (tail : List Char) :
    parseStringBody (escapeChar c ++ tail) =
      (parseStringBody tail).map (fun p => (c :: p.1, p.2)) := by
  by_cases h1 : c = '"'
  · subst h1
    rw [show escapeChar '"' ++ tail = '\\' :: '"' :: tail from rfl, parseStringBody.eq_def]
    simp [unescapeChar]
  · by_cases h2 : c = '\\'
    · subst h2
      rw [show escapeChar '\\' ++ tail = '\\' :: '\\' :: tail from rfl, parseStringBody.eq_def]
      simp [unescapeChar]
    · by_cases h3 : c = '\x08'
      · subst h3
        rw [show escapeChar '\x08' ++ tail = '\\' :: 'b' :: tail from rfl, parseStringBody.eq_def]
        simp [unescapeChar]
      · by_cases h4 : c = '\t'
        · subst h4
          rw [show escapeChar '\t' ++ tail = '\\' :: 't' :: tail from rfl, parseStringBody.eq_def]
          simp [unescapeChar]
        · by_cases h5 : c = '\n'
          · subst h5
            rw [show escapeChar '\n' ++ tail = '\\' :: 'n' :: tail from rfl, parseStringBody.eq_def]
            simp [unescapeChar]
          · by_cases h6 : c = '\x0c'
            · subst h6
              rw [show escapeChar '\x0c' ++ tail = '\\' :: 'f' :: tail from rfl, parseStringBody.eq_def]
              simp [unescapeChar]
            · by_cases h7 : c = '\r'
              · subst h7
                rw [show escapeChar '\r' ++ tail = '\\' :: 'r' :: tail from rfl, parseStringBody.eq_def]
                simp [unescapeChar]
              · by_cases h8 : c.toNat < 32
                · have hdiv : c.toNat / 16 < 16 := by omega
                  have hmod : c.toNat % 16 < 16 := by omega
                  have hcode : ((0 * 16 + 0) * 16 + c.toNat / 16) * 16 + c.toNat % 16
                      = c.toNat := by omega
                  simp only [escapeChar, if_neg h1, if_neg h2, if_neg h3, if_neg h4,
                    if_neg h5, if_neg h6, if_neg h7, if_pos h8, List.cons_append,
                    List.nil_append]
                  rw [parseStringBody_u (hexDigitChar (c.toNat / 16))
                    (hexDigitChar (c.toNat % 16)) (c.toNat / 16) (c.toNat % 16) tail
                    (hexVal_hexDigitChar (c.toNat / 16) hdiv)
                    (hexVal_hexDigitChar (c.toNat % 16) hmod), hcode, Char.ofNat_toNat]
                · simp only [escapeChar, if_neg h1, if_neg h2, if_neg h3, if_neg h4,
                    if_neg h5, if_neg h6, if_neg h7, if_neg h8, List.cons_append,
                    List.nil_append]
                  rw [parseStringBody.eq_def]
                  simp [h1, h2, show ¬ c.toNat < 32 by omega]

theorem parseStringBody_escape (cs : List Char) : ∀ (rest : List Char),
    parseStringBody (cs.flatMap escapeChar ++ '"' :: rest) = some (cs, rest) := by
  induction cs with
  | nil =>
    intro rest
    rw [List.flatMap_nil, List.nil_append, parseStringBody.eq_def]
    simp
  | cons c cs ih =>
    intro rest
    rw [List.flatMap_cons, List.append_assoc, parseStringBody_escapeChar, ih]
    rfl

/-! ## Lemmas: parser dispatch on a printed value -/


theorem parseValue_print_num (fuel : Nat) (i : Int) (rest : List Char) (h : numSafe rest) :
    parseValue (fuel + 1) (intToDigits i ++ rest) = some (.num i, rest) := by
  have hp := parseIntToken_print i rest h
  by_cases hneg : i < 0
  · simp only [intToDigits, if_pos hneg, List.cons_append] at hp ⊢
    simp only [parseValue]
    rw [if_neg (by decide), if_neg (by decide), if_neg (by decide), if_neg (by decide),
        if_neg (by decide), if_neg (by decide), hp]
  · simp only [intToDigits, if_neg hneg] at hp ⊢
    cases hnd : natToDigits i.natAbs with
    | nil => exact absurd hnd (natToDigits_ne_nil i.natAbs)
    | cons c cs =>
      have hc : isDigitChar c = true :=
        natToDigits_all_digits i.natAbs c (by rw [hnd]; simp)
      obtain ⟨n1, n2, n3, n4, n5, n6, n7, n8, n9, n10, n11⟩ := digit_ne_of_isDigit hc
      rw [hnd] at hp
      simp only [List.cons_append] at hp ⊢
      simp only [parseValue]
      rw [if_neg n2, if_neg n3, if_neg n4, if_neg n5, if_neg n6, if_neg n7, hp]

theorem Json.print_ne_nil (j : Json) : j.print ≠ [] := by
  cases j with
  | null => simp [Json.print]
  | bool b => cases b <;> simp [Json.print]
  | num i =>
    simp only [Json.print, intToDigits]
    split
    · simp
    · exact natToDigits_ne_nil _
  | str s => simp [Json.print]
  | arr xs => simp [Json.print]
  | obj fs => simp [Json.print]

theorem printElems_cons_eq (x : Json) (xs : List Json) :
    ∃ tail, Json.printElems (x :: xs) = x.print ++ tail := by
  cases xs with
  | nil => exact ⟨[], by simp [Json.printElems]⟩
  | cons y ys => exact ⟨',' :: Json.printElems (y :: ys), by simp [Json.printElems]⟩

theorem printFields_cons_eq (f : String × Json) (fs : List (String × Json)) :
    ∃ tail, Json.printFields (f :: fs) =
      '"' :: (escapeString f.1 ++ '"' :: ':' :: f.2.print ++ tail) := by
  obtain ⟨k, v⟩ := f
  cases fs with
  | nil => exact ⟨[], by simp [Json.printFields]⟩
  | cons g gs =>
    exact ⟨',' :: Json.printFields (g :: gs), by simp [Json.printFields]⟩

theorem print_head_not_close (j : Json) (c : Char) (cs : List Char)
    (h : j.print = c :: cs) : c ≠ ']' ∧ c ≠ '}' ∧ c ≠ ',' := by
  cases j with
  | null =>
    simp only [Json.print] at h
    injection h with h1 _
    subst h1
    exact ⟨by decide, by decide, by decide⟩
  | bool b =>
    cases b <;> simp only [Json.print] at h <;> (injection h with h1 _; subst h1) <;>
      exact ⟨by decide, by decide, by decide⟩
  | num i =>
    simp only [Json.print, intToDigits] at h
    by_cases hneg : i < 0
    · rw [if_pos hneg] at h
      injection h with h1 _
      subst h1
      exact ⟨by decide, by decide, by decide⟩
    · rw [if_neg hneg] at h
      have hc : isDigitChar c = true :=
        natToDigits_all_digits i.natAbs c (by rw [h]; simp)
      obtain ⟨-, -, -, -, -, -, -, m8, m9, m10, -⟩ := digit_ne_of_isDigit hc
      exact ⟨m8, m9, m10⟩
  | str s =>
    simp only [Json.print] at h
    injection h with h1 _
    subst h1
    exact ⟨by decide, by decide, by decide⟩
  | arr xs =>
    simp only [Json.print] at h
    injection h with h1 _
    subst h1
    exact ⟨by decide, by decide, by decide⟩
  | obj fs =>
    simp only [Json.print] at h
    injection h with h1 _
    subst h1
    exact ⟨by decide, by decide, by decide⟩

/-! ## Lemmas: the full parser recovers every printed value -/

/-- A continuation on which an element run correctly stops: empty, or
starting with neither a digit nor a comma. -/
def sepSafe (cs : List Char) : Prop :=
  ∀ c, cs.head? = some c → isDigitChar c = false ∧ c ≠ ','

theorem sepSafe.toNumSafe {cs : List Char} (h : sepSafe cs) : numSafe cs :=
  fun c hc => (h c hc).1

mutual
/-- Fuel estimate for `parseValue` on a printed value. -/
def Json.cost : Json → Nat
  | .null => 1
  | .bool _ => 1
  | .num _ => 1
  | .str _ => 1
  | .arr xs => 1 + Json.costElems xs
  | .obj fs => 1 + Json.costFields fs
/-- Fuel estimate for `parseElems` on printed elements. -/
def Json.costElems : List Json → Nat
  | [] => 0
  | x :: xs => 1 + max x.cost (Json.costElems xs)
/-- Fuel estimate for `parseFields` on printed members. -/
def Json.costFields : List (String × Json) → Nat
  | [] => 0
  | f :: fs => 1 + max f.2.cost (Json.costFields fs)
end

theorem costElems_cons_bound {x : Json} {xs : List Json} {fuel : Nat}
    (h : Json.costElems (x :: xs) ≤ fuel + 1) :
    x.cost ≤ fuel ∧ Json.costElems xs ≤ fuel := by
  simp only [Json.costElems] at h
  have h1 := Nat.le_max_left x.cost (Json.costElems xs)
  have h2 := Nat.le_max_right x.cost (Json.costElems xs)
  omega

theorem costFields_cons_bound {f : String × Json} {fs : List (String × Json)} {fuel : Nat}
    (h : Json.costFields (f :: fs) ≤ fuel + 1) :
    f.2.cost ≤ fuel ∧ Json.costFields fs ≤ fuel := by
  simp only [Json.costFields] at h
  have h1 := Nat.le_max_left f.2.cost (Json.costFields fs)
  have h2 := Nat.le_max_right f.2.cost (Json.costFields fs)
  omega

theorem parse_print_all : ∀ fuel : Nat,
    (∀ (j : Json) (rest : List Char), j.cost ≤ fuel → numSafe rest →
      parseValue fuel (j.print ++ rest) = some (j, rest)) ∧
    (∀ (xs : List Json) (rest : List Char), xs ≠ [] → Json.costElems xs ≤ fuel →
      sepSafe rest → parseElems fuel (Json.printElems xs ++ rest) = some (xs, rest)) ∧
    (∀ (fs : List (String × Json)) (rest : List Char), fs ≠ [] → Json.costFields fs ≤ fuel →
      sepSafe rest → parseFields fuel (Json.printFields fs ++ rest) = some (fs, rest)) := by
  intro fuel
  induction fuel with
  | zero =>
    refine ⟨?_, ?_, ?_⟩
    · intro j rest hc _
      exact absurd hc (by cases j <;> simp [Json.cost])
    · intro xs rest hne hc _
      cases xs with
      | nil => exact absurd rfl hne
      | cons x xs => exact absurd hc (by simp [Json.costElems])
    · intro fs rest hne hc _
      cases fs with
      | nil => exact absurd rfl hne
      | cons f fs => exact absurd hc (by simp [Json.costFields])
  | succ fuel ih =>
    obtain ⟨ihv, ihe, ihf⟩ := ih
    refine ⟨?_, ?_, ?_⟩
    · intro j rest hc hr
      cases j with
      | null =>
        rw [show Json.print Json.null ++ rest = 'n' :: 'u' :: 'l' :: 'l' :: rest from rfl,
            parseValue.eq_def]
        simp [expectChars]
      | bool b =>
        cases b with
        | true =>
          rw [show Json.print (Json.bool true) ++ rest
              = 't' :: 'r' :: 'u' :: 'e' :: rest from rfl, parseValue.eq_def]
          simp [expectChars]
        | false =>
          rw [show Json.print (Json.bool false) ++ rest
              = 'f' :: 'a' :: 'l' :: 's' :: 'e' :: rest from rfl, parseValue.eq_def]
          simp [expectChars]
      | num i =>
        rw [show Json.print (Json.num i) = intToDigits i from rfl]
        exact parseValue_print_num fuel i rest hr
      | str s =>
        obtain ⟨sd⟩ := s
        rw [show Json.print (Json.str (String.mk sd)) ++ rest
            = '"' :: (sd.flatMap escapeChar ++ '"' :: rest) from by
          simp [Json.print, escapeString]]
        rw [parseValue.eq_def]
        simp [parseStringBody_escape]
      | arr xs =>
        cases xs with
        | nil =>
          rw [show Json.print (Json.arr []) ++ rest = '[' :: ']' :: rest from by
            simp [Json.print, Json.printElems]]
          rw [parseValue.eq_def]
          simp
        | cons x xs =>
          have hce : Json.costElems (x :: xs) ≤ fuel := by
            simp only [Json.cost] at hc; omega
          have hie := ihe (x :: xs) (']' :: rest) (by simp) hce
            (by intro c2 hx; simp at hx; subst hx; exact ⟨by decide, by decide⟩)
          obtain ⟨tail, htail⟩ := printElems_cons_eq x xs
          cases hxp : x.print with
          | nil => exact absurd hxp (Json.print_ne_nil x)
          | cons c ds =>
            obtain ⟨hne1, hne2, hne3⟩ := print_head_not_close x c ds hxp
            have hshape : Json.printElems (x :: xs) ++ (']' :: rest)
                = c :: (ds ++ (tail ++ (']' :: rest))) := by
              rw [htail, hxp]; simp
            rw [show Json.print (Json.arr (x :: xs)) ++ rest
                = '[' :: (Json.printElems (x :: xs) ++ (']' :: rest)) from by
              simp [Json.print]]
            rw [hshape] at hie
            rw [hshape, parseValue.eq_def]
            simp [hne1, hie]
      | obj fs =>
        cases fs with
        | nil =>
          rw [show Json.print (Json.obj []) ++ rest = '{' :: '}' :: rest from by
            simp [Json.print, Json.printFields]]
          rw [parseValue.eq_def]
          simp
        | cons f fs =>
          have hcf : Json.costFields (f :: fs) ≤ fuel := by
            simp only [Json.cost] at hc; omega
          have hif := ihf (f :: fs) ('}' :: rest) (by simp) hcf
            (by intro c2 hx; simp at hx; subst hx; exact ⟨by decide, by decide⟩)
          obtain ⟨tail, htail⟩ := printFields_cons_eq f fs
          have hshape : Json.printFields (f :: fs) ++ ('}' :: rest)
              = '"' :: ((escapeString f.1 ++ '"' :: ':' :: f.2.print ++ tail)
                ++ ('}' :: rest)) := by
            rw [htail]; simp
          rw [show Json.print (Json.obj (f :: fs)) ++ rest
              = '{' :: (Json.printFields (f :: fs) ++ ('}' :: rest)) from by
            simp [Json.print]]
          rw [hshape] at hif
          simp only [List.append_assoc, List.cons_append] at hif
          rw [hshape, parseValue.eq_def]
          simp [hif]
    · intro xs rest hne hc hs
      cases xs with
      | nil => exact absurd rfl hne
      | cons x xs =>
        obtain ⟨hcx, hcxs⟩ := costElems_cons_bound hc
        cases xs with
        | nil =>
          have hv1 := ihv x rest hcx hs.toNumSafe
          rw [show Json.printElems [x] ++ rest = x.print ++ rest from by
            simp [Json.printElems]]
          rw [parseElems.eq_def]
          cases rest with
          | nil =>
            simp only [List.append_nil] at hv1
            simp [hv1]
          | cons c r2 =>
            obtain ⟨-, hcomma⟩ := hs c rfl
            simp [hv1, hcomma]
        | cons y ys =>
          have hv1 := ihv x (',' :: (Json.printElems (y :: ys) ++ rest)) hcx
            (by intro c hx; simp at hx; subst hx; decide)
          have he1 := ihe (y :: ys) rest (by simp) hcxs hs
          rw [show Json.printElems (x :: y :: ys) ++ rest
              = x.print ++ (',' :: (Json.printElems (y :: ys) ++ rest)) from by
            simp [Json.printElems]]
          rw [parseElems.eq_def]
          simp [hv1, he1]
    · intro fs rest hne hc hs
      cases fs with
      | nil => exact absurd rfl hne
      | cons f fs =>
        obtain ⟨hcv, hcfs⟩ := costFields_cons_bound hc
        obtain ⟨k, v⟩ := f
        obtain ⟨kd⟩ := k
        cases fs with
        | nil =>
          have hsb := parseStringBody_escape kd (':' :: (v.print ++ rest))
          have hv1 := ihv v rest hcv hs.toNumSafe
          rw [show Json.printFields [(String.mk kd, v)] ++ rest
              = '"' :: (kd.flatMap escapeChar ++ '"' :: (':' :: (v.print ++ rest))) from by
            simp [Json.printFields, escapeString]]
          rw [parseFields.eq_def]
          cases rest with
          | nil =>
            simp only [List.append_nil] at hsb hv1
            simp [hsb, hv1]
          | cons c r2 =>
            obtain ⟨-, hcomma⟩ := hs c rfl
            simp [hsb, hv1, hcomma]
        | cons g gs =>
          have hsb := parseStringBody_escape kd
            (':' :: (v.print ++ (',' :: (Json.printFields (g :: gs) ++ rest))))
          have hv1 := ihv v (',' :: (Json.printFields (g :: gs) ++ rest)) hcv
            (by intro c hx; simp at hx; subst hx; decide)
          have hf1 := ihf (g :: gs) rest (by simp) hcfs hs
          rw [show Json.printFields ((String.mk kd, v) :: g :: gs) ++ rest
              = '"' :: (kd.flatMap escapeChar ++ '"' :: (':' :: (v.print
                ++ (',' :: (Json.printFields (g :: gs) ++ rest))))) from by
            simp [Json.printFields, escapeString]]
          rw [parseFields.eq_def]
          simp [hsb, hv1, hf1]

/-! ## Lemmas: the persisted item array round-trips -/

theorem cost_encodeItem (x : ListItem) : (encodeItem x).cost = 7 := rfl

theorem costElems_map_encodeItem (xs : List ListItem) :
    Json.costElems (xs.map encodeItem) ≤ 7 + xs.length := by
  induction xs with
  | nil => simp [Json.costElems]
  | cons x xs ih =>
    simp only [List.map_cons, Json.costElems, cost_encodeItem, List.length_cons]
    have h2 := Nat.max_le.mpr ⟨(by omega : 7 ≤ 7 + xs.length), ih⟩
    omega

theorem length_printFields_pos (f : String × Json) (fs : List (String × Json)) :
    4 ≤ (Json.printFields (f :: fs)).length := by
  obtain ⟨k, v⟩ := f
  cases hvp : v.print with
  | nil => exact absurd hvp (Json.print_ne_nil v)
  | cons c ds =>
    cases fs with
    | nil =>
      simp only [Json.printFields, hvp, List.length_cons, List.length_append]
      omega
    | cons g gs =>
      simp only [Json.printFields, hvp, List.length_cons, List.length_append]
      omega

theorem length_print_obj (fs : List (String × Json)) (f : String × Json) :
    6 ≤ (Json.print (Json.obj (f :: fs))).length := by
  have h := length_printFields_pos f fs
  simp only [Json.print, List.length_cons, List.length_append]
  omega

theorem length_print_encodeItem (x : ListItem) : 6 ≤ (Json.print (encodeItem x)).length := by
  simp only [encodeItem]
  exact length_print_obj _ _

theorem length_printElems_encode (xs : List ListItem) (hne : xs ≠ []) :
    xs.length + 5 ≤ (Json.printElems (xs.map encodeItem)).length := by
  induction xs with
  | nil => exact absurd rfl hne
  | cons x xs ih =>
    cases xs with
    | nil =>
      simp only [List.map_cons, List.map_nil, Json.printElems, List.length_cons,
        List.length_nil]
      have := length_print_encodeItem x
      omega
    | cons y ys =>
      have h1 := length_print_encodeItem x
      have h2 := ih (by simp)
      simp only [List.map_cons, Json.printElems, List.length_append, List.length_cons]
        at h2 ⊢
      omega

theorem jsonParse_saveToLocalStorage (xs : List ListItem) :
    jsonParse (DynamicList.saveToLocalStorage xs) = some (Json.arr (xs.map encodeItem)) := by
  have hfuel : (Json.arr (xs.map encodeItem)).cost
      ≤ (Json.print (Json.arr (xs.map encodeItem))).length + 1 := by
    cases xs with
    | nil => simp [Json.cost, Json.costElems, Json.print, Json.printElems]
    | cons x xs =>
      have h1 := costElems_map_encodeItem (x :: xs)
      have h2 := length_printElems_encode (x :: xs) (by simp)
      simp only [Json.cost, Json.print, List.length_cons, List.length_append,
        List.map_cons] at h1 h2 ⊢
      omega
  have hparse := (parse_print_all ((Json.print (Json.arr (xs.map encodeItem))).length + 1)).1
    (Json.arr (xs.map encodeItem)) [] hfuel numSafe_nil
  rw [List.append_nil] at hparse
  show jsonParse (jsonStringify (Json.arr (xs.map encodeItem))) = _
  rw [jsonParse, jsonStringify]
  rw [show (String.mk (Json.print (Json.arr (xs.map encodeItem)))).length
      = (Json.print (Json.arr (xs.map encodeItem))).length from rfl,
      show (String.mk (Json.print (Json.arr (xs.map encodeItem)))).data
      = Json.print (Json.arr (xs.map encodeItem)) from rfl]
  rw [hparse]

theorem decodeItem_encodeItem (x : ListItem) : decodeItem (encodeItem x) = some x := rfl

theorem decodeItemList_encode (xs : List ListItem) :
    decodeItemList (xs.map encodeItem) = some xs := by
  induction xs with
  | nil => rfl
  | cons x xs ih =>
    simp [decodeItemList, decodeItem_encodeItem, ih]

theorem decodeItems_encodeItems (xs : List ListItem) :
    decodeItems (Json.arr (xs.map encodeItem)) = some xs := by
  simp only [decodeItems]
  exact decodeItemList_encode xs

/-! ## Lemmas: splitting an operand on the decimal point -/

theorem splitDots_no_dot (cs : List Char) (h : '.' ∉ cs) : splitDots cs = [cs] := by
  induction cs with
  | nil => rfl
  | cons c cs ih =>
    have hc : ¬ c = '.' := by intro hc; exact h (by simp [hc])
    have hcs : '.' ∉ cs := fun hm => h (by simp [hm])
    simp only [splitDots, if_neg hc, ih hcs]

theorem splitDots_append (a b : List Char) (h : '.' ∉ a) :
    splitDots (a ++ '.' :: b) = a :: splitDots b := by
  induction a with
  | nil => simp [splitDots]
  | cons c a ih =>
    have hc : ¬ c = '.' := by intro hc; exact h (by simp [hc])
    have ha : '.' ∉ a := fun hm => h (by simp [hm])
    simp only [List.cons_append, splitDots, if_neg hc, List.append_eq, ih ha]

/-! ## The specification's append-digit rules, as their own definition -/

/-- The `appendDigit` rules exactly as the specification words them (used
for the refinement proof of claim C6): if the reset flag is up, clear the
operand and the flag before processing; a second `.` is a no-op; a
non-`.` token replaces a lone `"0"`; otherwise the token is appended. -/
def appendDigitSpec (token : String) (s : Calculator) : Calculator :=
  let s1 := if s.shouldResetScreen then
    { s with currentOperand := "", shouldResetScreen := false } else s
  if token = "." ∧ s1.currentOperand.data.contains '.' = true then s1
  else if s1.currentOperand = "0" ∧ token ≠ "." then { s1 with currentOperand := token }
  else { s1 with currentOperand := s1.currentOperand ++ token }

/-! ## Lemmas: `removeItem` under unique ids -/

theorem filter_ne_eq_eraseP (items : List ListItem) (itemId : Int) :
    (items.filter (fun it => it.id == itemId)).length ≤ 1 →
    items.filter (fun it => it.id != itemId)
      = items.eraseP (fun it => it.id == itemId) := by
  induction items with
  | nil => intro _; rfl
  | cons a l ih =>
    intro h
    by_cases ha : a.id = itemId
    · have hb : (a.id == itemId) = true := by simp [ha]
      have hb2 : (a.id != itemId) = false := by simp [ha]
      have hfl : l.filter (fun it => it.id == itemId) = [] := by
        rw [List.filter_cons] at h
        simp only [hb, if_true, List.length_cons] at h
        exact List.length_eq_zero.mp (by omega)
      have hall : ∀ x ∈ l, (x.id != itemId) = true := by
        intro x hx
        by_contra hxx
        have hbeq : (x.id == itemId) = true := by
          simpa using hxx
        have : x ∈ l.filter (fun it => it.id == itemId) :=
          List.mem_filter.mpr ⟨hx, hbeq⟩
        rw [hfl] at this
        simp at this
      rw [List.filter_cons, List.eraseP_cons]
      simp only [hb, hb2, Bool.false_eq_true, if_false, cond_true]
      exact List.filter_eq_self.mpr hall
    · have hb : (a.id == itemId) = false := by simp [ha]
      have hb2 : (a.id != itemId) = true := by simp [ha]
      have h' : (l.filter (fun it => it.id == itemId)).length ≤ 1 := by
        rw [List.filter_cons] at h
        simpa [hb] using h
      rw [List.filter_cons, List.eraseP_cons]
      simp only [hb, hb2, cond_false, if_true]
      rw [ih h']

/-! ## The claims -/

/-- C1 (counterexample): the code does not fail soft — `init` with the
malformed persisted blob `"{"` raises the `JSON.parse` fault to the caller
instead of yielding an empty sequence (tema.js line 400 has no
`try`/`catch`). -/
theorem c1_counterexample_init_malformed_faults :
    DynamicList.init (some "\x7b") = Except.error "SyntaxError" := rfl

/-- C1 (amended): initialising the Item List Store with a present,
non-empty, unparseable serialized list raises the parse fault to the
caller; the in-memory sequence is replaced only on a successful parse. -/
theorem c1_amended_init_malformed_propagates_fault (s : String) (hne : s ≠ "")
    (hbad : jsonParse s = none) :
    DynamicList.init (some s) = Except.error "SyntaxError" := by
  simp [DynamicList.init, hne, hbad]

/-- C1 (witness): the amended claim at the concrete malformed blob `"{"`. -/
theorem c1_amended_witness :
    DynamicList.init (some "\x7b") = Except.error "SyntaxError" :=
  c1_amended_init_malformed_propagates_fault "\x7b" (by decide) rfl

/-- C2: `render()` is a state-only projection on the enumerated descriptor
fields — two calls with the same unchanged item list (and the same ambient
date formatter) agree on titles, formatted dates, descriptions, optional
values and delete ids, whatever `Math.random()` returns for the border
colours. -/
theorem c2_render_projection_deterministic (formatDate : String → String)
    (o1 o2 : Nat → Nat) (items : List ListItem) :
    (DynamicList.render formatDate o1 items).map RenderDescriptor.toView
      = (DynamicList.render formatDate o2 items).map RenderDescriptor.toView := by
  show (renderFrom formatDate o1 0 items).map RenderDescriptor.toView
    = (renderFrom formatDate o2 0 items).map RenderDescriptor.toView
  suffices h : ∀ i j : Nat, (renderFrom formatDate o1 i items).map RenderDescriptor.toView
      = (renderFrom formatDate o2 j items).map RenderDescriptor.toView from h 0 0
  induction items with
  | nil => intro i j; rfl
  | cons x xs ih =>
    intro i j
    simp only [renderFrom, List.map_cons, ih (i + 1) (j + 1)]
    exact congrArg (· :: _) rfl

/-- C3 (counterexample): on a list with a duplicated id, `removeItem` (a
`filter` on `id !==`) removes every matching record, not exactly the first
one — the claim predicts the second record would remain. -/
theorem c3_counterexample_removeItem_duplicate_ids :
    DynamicList.removeItem
        [⟨7, "a", "", "", "t1"⟩, ⟨7, "b", "", "", "t2"⟩] 7 = [] ∧
    DynamicList.removeItem
        [⟨7, "a", "", "", "t1"⟩, ⟨7, "b", "", "", "t2"⟩] 7
      ≠ [⟨7, "b", "", "", "t2"⟩] := by
  refine ⟨rfl, ?_⟩
  decide

/-- C3 (amended): when at most one record matches the id (the unique-id
invariant), `removeItem` removes exactly the first (and only) matching
record and is a no-op when none matches — equivalently it is `eraseP` on
the id — and in general the result is a sublist of the input, so the
relative order of the remaining records is unchanged. -/
theorem c3_amended_removeItem_unique_ids (items : List ListItem) (itemId : Int)
    (h : (items.filter (fun it => it.id == itemId)).length ≤ 1) :
    DynamicList.removeItem items itemId
      = items.eraseP (fun it => it.id == itemId) ∧
    (DynamicList.removeItem items itemId).Sublist items := by
  constructor
  · simpa [DynamicList.removeItem] using filter_ne_eq_eraseP items itemId h
  · simp only [DynamicList.removeItem]
    exact List.filter_sublist items

/-- C3 (witness): the amended claim at a concrete two-element list with
distinct ids, removing the first record. -/
theorem c3_amended_witness :
    DynamicList.removeItem [⟨1, "a", "", "", "t1"⟩, ⟨2, "b", "", "", "t2"⟩] 1
      = List.eraseP (fun it => it.id == 1) [⟨1, "a", "", "", "t1"⟩, ⟨2, "b", "", "", "t2"⟩] ∧
    (DynamicList.removeItem [⟨1, "a", "", "", "t1"⟩, ⟨2, "b", "", "", "t2"⟩] 1).Sublist
      [⟨1, "a", "", "", "t1"⟩, ⟨2, "b", "", "", "t2"⟩] :=
  c3_amended_removeItem_unique_ids
    [⟨1, "a", "", "", "t1"⟩, ⟨2, "b", "", "", "t2"⟩] 1 (by decide)

/-- C4: with a staged division operator and a current operand parsing to
zero (and a parseable previous operand), `compute()` stores the sentinel
`"Error: Div/0"` as `currentOperand` without a fault and arms
`shouldResetScreen`, so a following `appendDigit("7")` starts the fresh
operand `"7"`. -/
theorem c4_div_by_zero_sentinel (s : Calculator) (p c : JsNumber)
    (hop : s.operation = some "÷" ∨ s.operation = some "/")
    (hprev : parseFloat s.previousOperand = some p)
    (hcur : parseFloat s.currentOperand = some c) (hz : c.num = 0) :
    s.compute.currentOperand = "Error: Div/0" ∧
    s.compute.shouldResetScreen = true ∧
    (Calculator.appendNumber "7" s.compute).currentOperand = "7" := by
  have hcomp : s.compute = computeResultState "Error: Div/0" s := by
    rcases hop with h | h <;> simp [Calculator.compute, hprev, hcur, h, hz]
  rw [hcomp]
  refine ⟨rfl, rfl, ?_⟩
  simp [Calculator.appendNumber, computeResultState]

/-- C4 (witness): the claim at `previousOperand = "6"`,
`currentOperand = "0"`, staged `"÷"`. -/
theorem c4_witness :
    (Calculator.compute ⟨"0", "6", some "÷", false⟩).currentOperand = "Error: Div/0" ∧
    (Calculator.compute ⟨"0", "6", some "÷", false⟩).shouldResetScreen = true ∧
    (Calculator.appendNumber "7"
      (Calculator.compute ⟨"0", "6", some "÷", false⟩)).currentOperand = "7" :=
  c4_div_by_zero_sentinel ⟨"0", "6", some "÷", false⟩ ⟨6, 1⟩ ⟨0, 1⟩
    (Or.inl rfl) rfl rfl rfl

/-- C5: operator chaining folds left-to-right with no precedence — when an
operator is already staged (and the current operand is non-empty, so the
call is not the documented no-op), `chooseOperation` first folds the
pending pair through `compute` and then stages the new operator; and the
token sequence 1, +, 2, +, 3, = leaves `currentOperand = "6"`. -/
theorem c5_operator_chaining_folds_left :
    (∀ (s : Calculator) (op : String), s.currentOperand ≠ "" → s.previousOperand ≠ "" →
      Calculator.chooseOperation op s =
        { s.compute with
          operation := some op,
          previousOperand := s.compute.currentOperand,
          currentOperand := "" }) ∧
    (Calculator.compute (Calculator.appendNumber "3" (Calculator.chooseOperation "+"
        (Calculator.appendNumber "2" (Calculator.chooseOperation "+"
        (Calculator.appendNumber "1" Calculator.initial)))))).currentOperand = "6" := by
  constructor
  · intro s op h1 h2
    simp [Calculator.chooseOperation, h1, h2]
  · rfl

/-- C5 (witness): the folding equation at the concrete state
`previousOperand = "1"`, `currentOperand = "2"`, staged `"+"`. -/
theorem c5_witness :
    Calculator.chooseOperation "+" ⟨"2", "1", some "+", false⟩ =
      { (Calculator.compute ⟨"2", "1", some "+", false⟩) with
        operation := some "+",
        previousOperand := (Calculator.compute ⟨"2", "1", some "+", false⟩).currentOperand,
        currentOperand := "" } :=
  c5_operator_chaining_folds_left.1 ⟨"2", "1", some "+", false⟩ "+"
    (by decide) (by decide)

/-- C6: `appendDigit` follows exactly the claimed rules — the source
transition (tema.js lines 1153-1166) coincides with `appendDigitSpec`,
the rules as the specification words them, on every state and token. -/
theorem c6_appendDigit_rules (token : String) (s : Calculator) :
    Calculator.appendNumber token s = appendDigitSpec token s := by
  simp only [Calculator.appendNumber, appendDigitSpec]
  split_ifs <;> simp_all

/-- C7: serialization round-trip — deserializing the persisted string
written by `saveToLocalStorage` recovers the exact item sequence: same
ids, same title, description and value fields, same `createdAt`, same
order. -/
theorem c7_serialization_roundtrip (xs : List ListItem) :
    deserializeItems (DynamicList.saveToLocalStorage xs) = some xs := by
  simp only [deserializeItems, jsonParse_saveToLocalStorage, decodeItems_encodeItems]

/-- C8: display formatting — the error sentinel passes through unchanged;
for an operand split by the single decimal point into a dot-free integer
part and fractional part, the fractional part (even empty, as in `"12."`)
is reattached verbatim after the formatted integer part, which is grouped
exactly as the dot-free operand would be; and grouping uses the `es`
thousands separators (`"1234567"` displays as `"1.234.567"`). -/
theorem c8_display_format :
    (Calculator.getDisplayNumber "Error: Div/0" = "Error: Div/0") ∧
    (∀ (i f : String), '.' ∉ i.data → '.' ∉ f.data → i ≠ "Error: Div/0" →
      Calculator.getDisplayNumber (i ++ "." ++ f)
        = Calculator.getDisplayNumber i ++ "." ++ f) ∧
    (Calculator.getDisplayNumber "1234567" = "1.234.567") := by
  refine ⟨rfl, ?_, by decide⟩
  intro i f hi hf hsent
  obtain ⟨ichars⟩ := i
  obtain ⟨fchars⟩ := f
  have hdata : (String.mk ichars ++ "." ++ String.mk fchars).data
      = ichars ++ '.' :: fchars := by
    simp [String.data_append]
  have hne : String.mk ichars ++ "." ++ String.mk fchars ≠ "Error: Div/0" := by
    intro habs
    have hmem : '.' ∈ (String.mk ichars ++ "." ++ String.mk fchars).data := by
      rw [hdata]; simp
    rw [habs] at hmem
    exact absurd hmem (by decide)
  simp only [Calculator.getDisplayNumber, if_neg hne, if_neg hsent]
  rw [hdata, splitDots_append ichars fchars hi]
  rw [splitDots_no_dot ichars hi, splitDots_no_dot fchars hf]
  simp

/-- C8 (witness): the reattachment equation at the concrete operand
`"12."` (integer part `"12"`, empty fractional part). -/
theorem c8_witness :
    Calculator.getDisplayNumber ("12" ++ "." ++ "")
      = Calculator.getDisplayNumber "12" ++ "." ++ "" :=
  c8_display_format.2.1 "12" "" (by decide) (by decide) (by decide)

/-- C9: `clear()` resets `currentOperand` to `"0"`, `previousOperand` to
`""` and the staged operation to `none`, and leaves `shouldResetScreen`
exactly as it was. -/
theorem c9_clear_frame (s : Calculator) :
    s.clear = { currentOperand := "0", previousOperand := "",
                operation := none, shouldResetScreen := s.shouldResetScreen } := rfl

/-- C10: `deleteLast` writes only `currentOperand` — the previous operand,
the staged operation and the reset flag are untouched — and therefore in
any state just after a computation (`shouldResetScreen = true`), editing
with `deleteLast` and then appending a digit still discards the edited
result and starts the fresh operand from the new token. -/
theorem c10_delete_frame (s : Calculator) (d : String) :
    (s.delete.previousOperand = s.previousOperand ∧
     s.delete.operation = s.operation ∧
     s.delete.shouldResetScreen = s.shouldResetScreen) ∧
    (s.shouldResetScreen = true →
      (Calculator.appendNumber d s.delete).currentOperand = d) := by
  constructor
  · unfold Calculator.delete
    split <;> simp
  · intro hflag
    have hd : s.delete.shouldResetScreen = true := by
      unfold Calculator.delete
      split <;> simpa using hflag
    obtain ⟨dd⟩ := d
    simp [Calculator.appendNumber, hd]

/-- C10 (witness): the post-computation edit at a concrete flagged state. -/
theorem c10_witness :
    (Calculator.appendNumber "7"
      (Calculator.delete ⟨"6", "", none, true⟩)).currentOperand = "7" :=
  (c10_delete_frame ⟨"6", "", none, true⟩ "7").2 rfl
